import Mathlib

/-!
Verification development for the SVG/PNG converter and icon generator
(`svg_converter.py`).  The Python source is shallowly embedded below:
Pillow images become `PImage` (mode, size, pixel function), Python floats
become `ℚ`, paths become `FPath`, and the external CairoSVG rasterizer and
the Lanczos resampling kernel are passed in as explicit function
parameters.  The export functions are embedded as pure functions that
return the list of rasterizer invocations and the list of (path, image)
writes they perform.
-/

namespace SvgConv

/-- Pixel with red, green, blue and alpha channels (each conceptually 0..255).
For images in `RGB` mode the alpha channel is kept at 255. -/
@[ext]
structure Pixel where
  r : Nat
  g : Nat
  b : Nat
  a : Nat
deriving DecidableEq, Repr

/-- Pillow pixel modes used by the program: `RGB`, `RGBA`, and `L` standing
for any other (grayscale-like) mode. -/
inductive PMode
  | RGB
  | RGBA
  | L
deriving DecidableEq, Repr, BEq

/-- Shallow embedding of a Pillow `Image.Image`: a mode, pixel dimensions and
a total pixel function. -/
@[ext]
structure PImage where
  mode : PMode
  width : Nat
  height : Nat
  px : Nat → Nat → Pixel

/-- Per-pixel action of Pillow `Image.convert`: `RGBA → RGB` drops alpha,
`RGB → RGBA` adds an opaque alpha, `L` expands its gray value (stored in the
`r` field) to all color channels; conversion to `L` takes the ITU-R 601
luminance. -/
def convPix (src dst : PMode) (p : Pixel) : Pixel :=
  let base : Pixel :=
    match src with
    | .RGBA => p
    | .RGB => ⟨p.r, p.g, p.b, 255⟩
    | .L => ⟨p.r, p.r, p.r, 255⟩
  match dst with
  | .RGBA => base
  | .RGB => ⟨base.r, base.g, base.b, 255⟩
  | .L =>
    let l := (base.r * 299 + base.g * 587 + base.b * 114) / 1000
    ⟨l, l, l, 255⟩

/-- Embedding of `img.convert(mode)`. -/
def PImage.convert (img : PImage) (m : PMode) : PImage :=
  { mode := m, width := img.width, height := img.height,
    px := fun x y => convPix img.mode m (img.px x y) }

/-- Embedding of `PIL.Image.new(mode, (w, h), color)`. -/
def imageNew (m : PMode) (w h : Nat) (c : Pixel) : PImage :=
  { mode := m, width := w, height := h, px := fun _ _ => c }

/-- Resampling kernel abstraction (the program always selects
`LANCZOS_RESAMPLE`): given the source image and the target size, it yields
the target pixel function.  The kernel itself is external to the program. -/
def Resample : Type :=
  PImage → Nat → Nat → Nat → Nat → Pixel

/-- Embedding of `img.resize((w, h), LANCZOS_RESAMPLE)`. -/
def PImage.resize (img : PImage) (w h : Nat) (R : Resample) : PImage :=
  { mode := img.mode, width := w, height := h, px := fun x y => R img w h x y }

/-- Pillow `MULDIV255` rounding approximation of `a * b / 255`, used by
`Image.paste` when an 8-bit mask is supplied. -/
def muldiv255 (a b : Nat) : Nat :=
  let t := a * b + 128
  (t / 256 + t) / 256

/-- Blend of one 8-bit channel of a destination and a source value under a
mask value `m`, as in Pillow `paste` with an `L`-mode mask. -/
def blend8 (d s m : Nat) : Nat :=
  muldiv255 d (255 - m) + muldiv255 s m

/-- Channelwise blend of two pixels under a mask value; the destination of a
masked `paste` in this program is always an `RGB` image, so the result alpha
is the opaque 255. -/
def blendPix (d s : Pixel) (m : Nat) : Pixel :=
  ⟨blend8 d.r s.r m, blend8 d.g s.g m, blend8 d.b s.b m, 255⟩

/-- Embedding of `dst.paste(src, (cx, cy))` without a mask: source pixels are
converted to the destination mode and overwrite the destination inside the
pasted region. -/
def pasteAt (dst src : PImage) (cx cy : Int) : PImage :=
  { dst with
    px := fun x y =>
      let sx : Int := (x : Int) - cx
      let sy : Int := (y : Int) - cy
      if 0 ≤ sx ∧ sx < (src.width : Int) ∧ 0 ≤ sy ∧ sy < (src.height : Int) ∧
          x < dst.width ∧ y < dst.height then
        convPix src.mode dst.mode (src.px sx.toNat sy.toNat)
      else dst.px x y }

/-- Embedding of `dst.paste(src, (cx, cy), mask)` with an 8-bit mask
(`maskPx` is the mask pixel function, in this program always an alpha
channel). -/
def pasteMask (dst src : PImage) (maskPx : Nat → Nat → Nat) (cx cy : Int) : PImage :=
  { dst with
    px := fun x y =>
      let sx : Int := (x : Int) - cx
      let sy : Int := (y : Int) - cy
      if 0 ≤ sx ∧ sx < (src.width : Int) ∧ 0 ≤ sy ∧ sy < (src.height : Int) ∧
          x < dst.width ∧ y < dst.height then
        blendPix (dst.px x y) (convPix src.mode dst.mode (src.px sx.toNat sy.toNat))
          (maskPx sx.toNat sy.toNat)
      else dst.px x y }

/-- Porter-Duff `over` on straight-alpha 8-bit pixels, as performed by
Pillow `Image.alpha_composite`. -/
def overPix (d s : Pixel) : Pixel :=
  let oa := s.a + d.a * (255 - s.a) / 255
  let comp := fun (dc sc : Nat) =>
    if oa = 0 then 0 else (sc * s.a + dc * d.a * (255 - s.a) / 255) / oa
  ⟨comp d.r s.r, comp d.g s.g, comp d.b s.b, oa⟩

/-- Embedding of `dst.alpha_composite(src, (cx, cy))`. -/
def alphaComposite (dst src : PImage) (cx cy : Int) : PImage :=
  { dst with
    px := fun x y =>
      let sx : Int := (x : Int) - cx
      let sy : Int := (y : Int) - cy
      if 0 ≤ sx ∧ sx < (src.width : Int) ∧ 0 ≤ sy ∧ sy < (src.height : Int) ∧
          x < dst.width ∧ y < dst.height then
        overPix (dst.px x y) (src.px sx.toNat sy.toNat)
      else dst.px x y }

/-- Embedding of `QColor`: red, green, blue, alpha components. -/
structure QColorT where
  r : Nat
  g : Nat
  b : Nat
  a : Nat
deriving DecidableEq, Repr

/-- Embedding of `QColor("white")`. -/
def whiteColor : QColorT := ⟨255, 255, 255, 255⟩

/-- Embedding of `qcolor_to_rgba_tuple`. -/
def qcolor_to_rgba_tuple (c : QColorT) : Nat × Nat × Nat × Nat :=
  (c.r, c.g, c.b, c.a)

/-- Embedding of `pillow_flatten(img, bg_rgba)`: flatten any image onto an
opaque RGB background; non-`RGBA` input is just converted to `RGB`,
otherwise the image is pasted onto a background-colored RGB canvas using its
own alpha channel (`img.split()[3]`) as the mask. -/
def pillow_flatten (img : PImage) (bg_rgba : Nat × Nat × Nat × Nat) : PImage :=
  if img.mode ≠ PMode.RGBA then img.convert .RGB
  else
    let bg := imageNew .RGB img.width img.height ⟨bg_rgba.1, bg_rgba.2.1, bg_rgba.2.2.1, 255⟩
    let img_rgb := img.convert .RGB
    pasteMask bg img_rgb (fun x y => (img.px x y).a) 0 0

/-- Abstraction of `cairosvg.svg2png(url, output_width, output_height,
background_color)`: given the requested output size and optional background
RGB it yields the pixel data of the decoded PNG.  CairoSVG guarantees the
output raster has exactly the requested dimensions; the decoded PNG is an
`RGBA` Pillow image. -/
def Svg2Png : Type :=
  Nat → Nat → Option (Nat × Nat × Nat) → Nat → Nat → Pixel

/-- Embedding of lines 103-134 of `render_svg_to_pillow`: clamp the zoom to
[0.1, 1.0], compute the padded work area and the zoomed render size, invoke
CairoSVG, convert to `RGBA`/`RGB`, and apply the safety re-clamp resize when
the content exceeds the work area. -/
def renderContentFinal (F : Svg2Png) (R : Resample) (width height : Nat) (zoom : ℚ)
    (padding : Nat) (transparent : Bool) (bg : QColorT) : PImage :=
  let zoomC : ℚ := max (1 / 10) (min 1 zoom)
  let canvas_w := max 1 width
  let canvas_h := max 1 height
  let work_w := max 1 (canvas_w - 2 * padding)
  let work_h := max 1 (canvas_h - 2 * padding)
  let render_w := max 1 (⌊(work_w : ℚ) * zoomC⌋.toNat)
  let render_h := max 1 (⌊(work_h : ℚ) * zoomC⌋.toNat)
  let bgArg : Option (Nat × Nat × Nat) :=
    if transparent then none else some (bg.r, bg.g, bg.b)
  let content : PImage := ⟨.RGBA, render_w, render_h, F render_w render_h bgArg⟩
  let content := content.convert (if transparent then .RGBA else .RGB)
  let cw := content.width
  let ch := content.height
  let scale : ℚ := min ((work_w : ℚ) / (cw : ℚ)) (min ((work_h : ℚ) / (ch : ℚ)) 1)
  if scale < 1 then
    content.resize (max 1 (⌊(cw : ℚ) * scale⌋.toNat)) (max 1 (⌊(ch : ℚ) * scale⌋.toNat)) R
  else content

/-- Embedding of `render_svg_to_pillow`: the content computed by
`renderContentFinal` is centered on a canvas of the requested size, alpha
composited in transparent mode and pasted (with the content alpha as mask
when present) onto a background-colored RGB canvas otherwise
(lines 136-157 of the source). -/
def renderSvgToPillow (F : Svg2Png) (R : Resample) (width height : Nat) (zoom : ℚ)
    (padding : Nat) (transparent : Bool) (bg_color : Option QColorT) : PImage :=
  let bg := bg_color.getD whiteColor
  let canvas_w := max 1 width
  let canvas_h := max 1 height
  let content := renderContentFinal F R width height zoom padding transparent bg
  if transparent then
    let canvas := imageNew .RGBA canvas_w canvas_h ⟨0, 0, 0, 0⟩
    let cx := Int.fdiv ((canvas_w : Int) - (content.width : Int)) 2
    let cy := Int.fdiv ((canvas_h : Int) - (content.height : Int)) 2
    if canvas.mode = PMode.RGBA ∧ content.mode = PMode.RGBA then
      alphaComposite canvas content cx cy
    else
      pasteAt canvas content cx cy
  else
    let canvas := imageNew .RGB canvas_w canvas_h ⟨bg.r, bg.g, bg.b, 255⟩
    let cx := Int.fdiv ((canvas_w : Int) - (content.width : Int)) 2
    let cy := Int.fdiv ((canvas_h : Int) - (content.height : Int)) 2
    if content.mode = PMode.RGBA then
      pasteMask canvas (content.convert .RGB) (fun x y => (content.px x y).a) cx cy
    else
      pasteAt canvas content cx cy

/-- Embedding of the nested `png_render_to_pillow(path, width, height,
**kwargs)` of `SvgConverterApp.on_create` (also the raster branch of
`update_preview`): decode the raster source, convert to `RGBA`, resize to
the exact target size.  The keyword arguments `zoom`, `padding`,
`transparent` and `bg` are accepted and ignored, exactly as the `**kwargs`
of the source. -/
def png_render_to_pillow (decoded : PImage) (R : Resample) (width height : Nat)
    (zoom : ℚ) (padding : Nat) (transparent : Bool) (bg : QColorT) : PImage :=
  (decoded.convert .RGBA).resize width height R

/-- Embedding of a `pathlib.Path` to a file: the directory components, the
stem and the suffix (extension with dot).  A name of the form
`<stem>_<k>` produced by the collision loop is represented with the full
string `stem ++ "_" ++ toString k` in the `stem` field, exactly as
`Path.with_stem` builds it. -/
structure FPath where
  dir : List String
  stem : String
  sfx : String
deriving DecidableEq, Repr

/-- Embedding of `Path.with_stem`. -/
def FPath.withStem (p : FPath) (s : String) : FPath :=
  { p with stem := s }

/-- Candidate path produced by iteration `counter` of the collision loop of
`unique_path`: the original path with stem `f"{path.stem}_{counter}"`. -/
def suffixedStem (p : FPath) (counter : Nat) : FPath :=
  p.withStem (p.stem ++ "_" ++ toString counter)

/-- Fuel-indexed while-loop of `unique_path`: try
`stem_counter, stem_counter+1, ...` until a candidate is not among the
existing files.  The Python loop has no fuel; `existing.length + 1`
iterations always suffice (see `uniquePathGo_not_mem`), so the fuel bound
never changes the computed value. -/
def uniquePathGo (existing : List FPath) (p : FPath) : Nat → Nat → FPath
  | 0, counter => suffixedStem p counter
  | fuel + 1, counter =>
    let cand := suffixedStem p counter
    if cand ∈ existing then uniquePathGo existing p fuel (counter + 1) else cand

/-- Embedding of `unique_path(path)`: the filesystem state is made explicit
as the list `existing` of paths that exist; `new_path.exists()` becomes
membership in that list.  Returns `path` itself when free, otherwise the
first free `stem_1, stem_2, ...` candidate. -/
def uniquePath (existing : List FPath) (p : FPath) : FPath :=
  if p ∈ existing then uniquePathGo existing p (existing.length + 1) 1 else p

/-- Embedding of Python `max(sizes)` on a (nonempty) list of sizes. -/
def maxList (l : List Nat) : Nat :=
  l.foldl max 0

/-- Embedding of Python `str.lower()` (characterwise ASCII lowering, which is
all the program feeds it: format names such as "PNG", "jpg"). -/
def pyLower (s : String) : String :=
  ⟨s.data.map Char.toLower⟩

/-- Effects performed by one export function: the `(width, height)` of each
`render_svg_to_pillow` invocation in order, the `(path, image)` pairs
written through Pillow `save`, and the error surfaced, if any. -/
structure SaveResult where
  renders : List (Nat × Nat)
  writes : List (FPath × PImage)
  err : Option String

/-- Embedding of `save_windows_ico`: render once at the largest size, drop
alpha when not transparent, and save a single ICO container whose per-size
frames Pillow resamples internally from that one base image. -/
def save_windows_ico (existing : List FPath) (F : Svg2Png) (R : Resample)
    (out_dir : List String) (sizes : List Nat) (transparent : Bool)
    (zoom : ℚ) (padding : Nat) (bg : QColorT) : SaveResult :=
  let base := maxList sizes
  let src := renderSvgToPillow F R base base zoom padding transparent (some bg)
  let src := if transparent = false then
      (if src.mode ≠ PMode.RGB then src.convert .RGB else src)
    else src
  let ico_path := uniquePath existing ⟨out_dir, "icon", ".ico"⟩
  { renders := [(base, base)], writes := [(ico_path, src)], err := none }

/-- Embedding of `save_macos_icns`.  The external circumstances are explicit
parameters: whether the Pillow ICNS encode raises (`pillowSaveFails`),
whether `platform.system() == "Darwin"` (`isDarwin`), and the exit code of
the `iconutil` subprocess.  On the primary path the single base render is
saved; on the macOS fallback each expected size is re-rendered into an
`icon.iconset` PNG set and `iconutil` packs it (that container file itself
is written by the external tool, not by Pillow). -/
def save_macos_icns (existing : List FPath) (F : Svg2Png) (R : Resample)
    (out_dir : List String) (sizes_for_check : List Nat) (transparent : Bool)
    (zoom : ℚ) (padding : Nat) (bg : QColorT)
    (pillowSaveFails isDarwin : Bool) (iconutilExitCode : Nat) : SaveResult :=
  let base := maxList sizes_for_check
  let src := renderSvgToPillow F R base base zoom padding transparent (some bg)
  let src := if transparent = false then
      pillow_flatten src (qcolor_to_rgba_tuple bg)
    else src
  let icns_path := uniquePath existing ⟨out_dir, "icon", ".icns"⟩
  if pillowSaveFails = false then
    { renders := [(base, base)], writes := [(icns_path, src)], err := none }
  else if isDarwin then
    let frames := sizes_for_check.map fun s =>
      ((⟨out_dir ++ ["icon.iconset"], "icon_" ++ toString s ++ "x" ++ toString s, ".png"⟩ : FPath),
        renderSvgToPillow F R s s zoom padding transparent (some bg))
    { renders := (base, base) :: sizes_for_check.map (fun s => (s, s)),
      writes := frames,
      err := if iconutilExitCode ≠ 0 then
          some "ICNS export failed (Pillow + iconutil)"
        else none }
  else
    { renders := [(base, base)], writes := [], err := some "Pillow ICNS save error" }

/-- Embedding of `save_png_set`: one render and one write per size, with
flattening for JPG/JPEG/BMP or when not transparent.  The destination names
are fixed (`img.save` directly, no `unique_path`). -/
def save_png_set (F : Svg2Png) (R : Resample) (out_dir : List String)
    (label name : String) (sizes : List Nat) (transparent : Bool)
    (zoom : ℚ) (padding : Nat) (bg : QColorT) (fmt : String) : SaveResult :=
  let fmtL := pyLower fmt
  let base := out_dir ++ [label, name]
  { renders := sizes.map fun s => (s, s),
    writes := sizes.map fun s =>
      let img := renderSvgToPillow F R s s zoom padding transparent (some bg)
      let img := if fmtL ∈ ["jpg", "jpeg", "bmp"] ∨ transparent = false then
          pillow_flatten img (qcolor_to_rgba_tuple bg)
        else img
      ((⟨base, name ++ "_" ++ toString s ++ "x" ++ toString s, "." ++ fmtL⟩ : FPath), img),
    err := none }

/-- Embedding of `save_wallpapers`: like `save_png_set` but with explicit
width-height pairs and the `wallpapers/<label>/<name>` directory layout;
also writes fixed names without `unique_path`. -/
def save_wallpapers (F : Svg2Png) (R : Resample) (out_dir : List String)
    (label name : String) (sizes : List (Nat × Nat)) (transparent : Bool)
    (zoom : ℚ) (padding : Nat) (bg : QColorT) (fmt : String) : SaveResult :=
  let fmtL := pyLower fmt
  let base := out_dir ++ ["wallpapers", label, name]
  { renders := sizes,
    writes := sizes.map fun sz =>
      let img := renderSvgToPillow F R sz.1 sz.2 zoom padding transparent (some bg)
      let img := if fmtL ∈ ["jpg", "jpeg", "bmp"] ∨ transparent = false then
          pillow_flatten img (qcolor_to_rgba_tuple bg)
        else img
      ((⟨base, name ++ "_" ++ toString sz.1 ++ "x" ++ toString sz.2, "." ++ fmtL⟩ : FPath), img),
    err := none }

/-- Embedding of `save_custom`: a single render at the requested size,
written through `unique_path`; PDF is always flattened and force-converted
to RGB, JPG/JPEG/BMP (or any format when not transparent) are flattened. -/
def save_custom (existing : List FPath) (F : Svg2Png) (R : Resample)
    (out_dir : List String) (name : String) (w h : Nat) (fmt : String)
    (transparent : Bool) (zoom : ℚ) (padding : Nat) (bg : QColorT) : SaveResult :=
  let img := renderSvgToPillow F R w h zoom padding transparent (some bg)
  let fmtL := pyLower fmt
  let out := uniquePath existing
    ⟨out_dir, name ++ "_" ++ toString w ++ "x" ++ toString h, "." ++ fmtL⟩
  if fmtL = "pdf" then
    { renders := [(w, h)],
      writes := [(out, (pillow_flatten img (qcolor_to_rgba_tuple bg)).convert .RGB)],
      err := none }
  else if fmtL ∈ ["jpg", "jpeg", "bmp"] ∨ transparent = false then
    { renders := [(w, h)],
      writes := [(out, pillow_flatten img (qcolor_to_rgba_tuple bg))], err := none }
  else
    { renders := [(w, h)], writes := [(out, img)], err := none }

/-- Outcome of importing the module: either the application proceeds to
start, or the process terminates with an exit code (as `sys.exit` does), or
a catchable exception with the given name propagates to callers.  The third
constructor exists so that statements can distinguish what the source does
from what the specification describes. -/
inductive StartupOutcome
  | appStarted
  | processExit (code : Nat)
  | raisedCatchable (errorName : String)
deriving DecidableEq, Repr

/-- Result of the module-level `try: import cairosvg / except OSError`
guard: the outcome together with the output files written by the time the
outcome is reached (always none; the guard only prints remediation text to
stderr). -/
structure ImportGuardResult where
  outcome : StartupOutcome
  filesWritten : List FPath
deriving DecidableEq, Repr

/-- Embedding of the `cairosvg` import guard (lines 14-31): when the Cairo
backend is available the module loads and the application starts; when
importing raises `OSError` the guard prints platform-specific install
instructions to stderr and calls `sys.exit(1)`, terminating the process
before any export code exists. -/
def cairosvgImport (cairoAvailable : Bool) (sysPlatform : String) : ImportGuardResult :=
  if cairoAvailable then { outcome := .appStarted, filesWritten := [] }
  else { outcome := .processExit 1, filesWritten := [] }

/-- Size preset `WINDOWS_ICO_SIZES` of the source. -/
def WINDOWS_ICO_SIZES : List Nat := [16, 24, 32, 48, 64, 128, 256]

/-- Size preset `MAC_ICON_SIZES` of the source. -/
def MAC_ICON_SIZES : List Nat := [16, 32, 64, 128, 256, 512, 1024]

/-- Size preset `LINUX_ICON_SIZES` of the source. -/
def LINUX_ICON_SIZES : List Nat := [16, 22, 24, 32, 48, 64, 96, 128, 256, 512]

/-- Fuel-free restatement of `Nat.toDigitsCore 10`: accumulate the decimal
digits of `n` in front of `ds`.  Used to reason about the strings built by
the `f"{path.stem}_{counter}"` collision loop. -/
def digitsAux (n : Nat) (ds : List Char) : List Char :=
  if _h : n / 10 = 0 then Nat.digitChar (n % 10) :: ds
  else digitsAux (n / 10) (Nat.digitChar (n % 10) :: ds)
termination_by n
decreasing_by omega

/-- The power of ten one past the leading digit of `n`; the weight that a
prefix accumulator picks up while folding over the digits of `n`. -/
def tenPow (n : Nat) : Nat :=
  if _h : n / 10 = 0 then 10 else 10 * tenPow (n / 10)
termination_by n
decreasing_by omega

/-- Numeric value read back from a digit string by a decimal left fold. -/
def digitsVal (acc : Nat) (ds : List Char) : Nat :=
  ds.foldl (fun a c => a * 10 + (c.toNat - 48)) acc

/-- Placement step shared by both canvas branches of `render_svg_to_pillow`
(lines 137-157): the content is put on a fresh canvas of the given size at
the centered offset `((canvas_w - content_w) // 2, (canvas_h - content_h) // 2)`,
computed with floor division, alpha-composited in transparent mode and pasted
(the opaque content carries no alpha there) in opaque mode. -/
def centeredCanvasPlace (content : PImage) (canvas_w canvas_h : Nat) (t : Bool)
    (bg : QColorT) : PImage :=
  let cx := Int.fdiv ((canvas_w : Int) - (content.width : Int)) 2
  let cy := Int.fdiv ((canvas_h : Int) - (content.height : Int)) 2
  if t then
    alphaComposite (imageNew .RGBA canvas_w canvas_h ⟨0, 0, 0, 0⟩) content cx cy
  else
    pasteAt (imageNew .RGB canvas_w canvas_h ⟨bg.r, bg.g, bg.b, 255⟩) content cx cy

/-- Degenerate rasterizer instance used to exercise the theorems on fully
concrete inputs. -/
def sampleSvg2Png : Svg2Png := fun _ _ _ _ _ => ⟨0, 0, 0, 0⟩

/-- Degenerate resampling kernel used on fully concrete inputs. -/
def sampleResample : Resample := fun _ _ _ _ _ => ⟨0, 0, 0, 0⟩

/-- Concrete background color used on fully concrete inputs. -/
def sampleColor : QColorT := ⟨10, 20, 30, 255⟩

/-- Concrete RGB image used on fully concrete inputs. -/
def sampleImageRGB : PImage := ⟨.RGB, 2, 2, fun _ _ => ⟨1, 2, 3, 255⟩⟩

/-- Concrete path used on fully concrete inputs. -/
def samplePath : FPath := ⟨["out"], "icon", ".ico"⟩

theorem digitChar_val {m : Nat} (h : m < 10) : (Nat.digitChar m).toNat - 48 = m := by
  interval_cases m <;> decide

theorem digitsVal_digitsAux (n : Nat) :
    ∀ ds acc, digitsVal acc (digitsAux n ds) = digitsVal (acc * tenPow n + n) ds := by
  induction n using Nat.strong_induction_on with
  | _ n ih =>
    intro ds acc
    rw [digitsAux, tenPow]
    by_cases h : n / 10 = 0
    · simp only [h, dif_pos]
      show digitsVal (acc * 10 + ((Nat.digitChar (n % 10)).toNat - 48)) ds = _
      rw [digitChar_val (Nat.mod_lt _ (by omega))]
      congr 2
      omega
    · simp only [h, dif_neg, not_false_iff]
      rw [ih (n / 10) (by omega)]
      show digitsVal ((acc * tenPow (n / 10) + n / 10) * 10 +
        ((Nat.digitChar (n % 10)).toNat - 48)) ds = _
      rw [digitChar_val (Nat.mod_lt _ (by omega))]
      congr 1
      have := Nat.div_add_mod n 10
      ring_nf
      omega

theorem toDigitsCore_eq_digitsAux :
    ∀ (fuel n : Nat) (ds : List Char), n < fuel →
      Nat.toDigitsCore 10 fuel n ds = digitsAux n ds := by
  intro fuel
  induction fuel with
  | zero => omega
  | succ f ih =>
    intro n ds h
    rw [Nat.toDigitsCore, digitsAux]
    by_cases h0 : n / 10 = 0
    · simp only [h0, if_pos, dif_pos]
    · simp only [h0, if_neg, dif_neg, not_false_iff]
      exact ih _ _ (by omega)

theorem nat_repr_injective {m n : Nat} (h : Nat.repr m = Nat.repr n) : m = n := by
  have hm : Nat.toDigits 10 m = Nat.toDigits 10 n := by
    have h2 : (Nat.toDigits 10 m).asString.data = (Nat.toDigits 10 n).asString.data :=
      congrArg String.data h
    simpa [List.asString] using h2
  have hm' : digitsAux m [] = digitsAux n [] := by
    rw [Nat.toDigits, Nat.toDigits] at hm
    rwa [toDigitsCore_eq_digitsAux _ _ _ (Nat.lt_succ_self m),
      toDigitsCore_eq_digitsAux _ _ _ (Nat.lt_succ_self n)] at hm
  have hv := congrArg (digitsVal 0) hm'
  rw [digitsVal_digitsAux, digitsVal_digitsAux] at hv
  simpa [digitsVal] using hv

theorem nat_toString_injective {m n : Nat} (h : toString m = toString n) : m = n :=
  nat_repr_injective h

theorem string_append_cancel_left {s a b : String} (h : s ++ a = s ++ b) : a = b := by
  have h2 : (s ++ a).data = (s ++ b).data := congrArg String.data h
  rw [String.data_append, String.data_append] at h2
  exact String.ext (List.append_cancel_left h2)

theorem suffixedStem_injective (p : FPath) {i j : Nat}
    (h : suffixedStem p i = suffixedStem p j) : i = j := by
  have hst : p.stem ++ "_" ++ toString i = p.stem ++ "_" ++ toString j := by
    have := congrArg FPath.stem h
    simpa [suffixedStem, FPath.withStem] using this
  rw [String.append_assoc, String.append_assoc] at hst
  have := string_append_cancel_left hst
  have := string_append_cancel_left this
  exact nat_toString_injective this

theorem exists_free_counter (E : List FPath) (p : FPath) (c : Nat) :
    ∃ k, c ≤ k ∧ k < c + (E.length + 1) ∧ suffixedStem p k ∉ E := by
  by_contra hcon
  push_neg at hcon
  set L := (List.range (E.length + 1)).map (fun i => suffixedStem p (c + i)) with hL
  have hnd : L.Nodup := by
    refine List.Nodup.map ?_ (List.nodup_range _)
    intro i j hij
    have := suffixedStem_injective p hij
    omega
  have hsub : L ⊆ E := by
    intro x hx
    rw [hL, List.mem_map] at hx
    obtain ⟨i, hi, rfl⟩ := hx
    rw [List.mem_range] at hi
    exact hcon (c + i) (by omega) (by omega)
  have hle : L.length ≤ E.length := (hnd.subperm hsub).length_le
  rw [hL, List.length_map, List.length_range] at hle
  omega

theorem uniquePathGo_spec (E : List FPath) (p : FPath) :
    ∀ (fuel c : Nat), (∃ k, c ≤ k ∧ k < c + fuel ∧ suffixedStem p k ∉ E) →
      uniquePathGo E p fuel c ∉ E ∧
        ∃ k, c ≤ k ∧ uniquePathGo E p fuel c = suffixedStem p k ∧
          ∀ j, c ≤ j → j < k → suffixedStem p j ∈ E := by
  intro fuel
  induction fuel with
  | zero =>
    intro c h
    obtain ⟨k, hk1, hk2, _⟩ := h
    omega
  | succ f ih =>
    intro c h
    simp only [uniquePathGo]
    by_cases hc : suffixedStem p c ∈ E
    · rw [if_pos hc]
      have hnext : ∃ k, c + 1 ≤ k ∧ k < (c + 1) + f ∧ suffixedStem p k ∉ E := by
        obtain ⟨k, hk1, hk2, hk3⟩ := h
        refine ⟨k, ?_, by omega, hk3⟩
        rcases Nat.eq_or_lt_of_le hk1 with rfl | hlt
        · exact absurd hc hk3
        · omega
      obtain ⟨hmem, k, hk1, heq, hall⟩ := ih (c + 1) hnext
      refine ⟨hmem, k, by omega, heq, ?_⟩
      intro j hj1 hj2
      rcases Nat.eq_or_lt_of_le hj1 with rfl | hlt
      · exact hc
      · exact hall j hlt hj2
    · rw [if_neg hc]
      exact ⟨hc, c, le_refl c, rfl, fun j hj1 hj2 => by omega⟩

theorem uniquePath_not_mem (E : List FPath) (p : FPath) : uniquePath E p ∉ E := by
  rw [uniquePath]
  by_cases hp : p ∈ E
  · rw [if_pos hp]
    exact (uniquePathGo_spec E p (E.length + 1) 1 (exists_free_counter E p 1)).1
  · rw [if_neg hp]
    exact hp

theorem uniquePath_characterization (E : List FPath) (p : FPath) :
    (p ∉ E → uniquePath E p = p) ∧
      (p ∈ E → ∃ k, 1 ≤ k ∧ uniquePath E p = suffixedStem p k ∧
        ∀ j, 1 ≤ j → j < k → suffixedStem p j ∈ E) := by
  constructor
  · intro hp
    rw [uniquePath, if_neg hp]
  · intro hp
    rw [uniquePath, if_pos hp]
    exact (uniquePathGo_spec E p (E.length + 1) 1 (exists_free_counter E p 1)).2

@[simp] theorem imageNew_mode (m w h c) : (imageNew m w h c).mode = m := rfl

@[simp] theorem imageNew_width (m w h c) : (imageNew m w h c).width = w := rfl

@[simp] theorem imageNew_height (m w h c) : (imageNew m w h c).height = h := rfl

@[simp] theorem convert_mode (img : PImage) (m : PMode) : (img.convert m).mode = m := rfl

@[simp] theorem convert_width (img : PImage) (m : PMode) : (img.convert m).width = img.width := rfl

@[simp] theorem convert_height (img : PImage) (m : PMode) : (img.convert m).height = img.height := rfl

@[simp] theorem resize_mode (img : PImage) (w h R) : (img.resize w h R).mode = img.mode := rfl

@[simp] theorem resize_width (img : PImage) (w h R) : (img.resize w h R).width = w := rfl

@[simp] theorem resize_height (img : PImage) (w h R) : (img.resize w h R).height = h := rfl

@[simp] theorem alphaComposite_mode (d s cx cy) : (alphaComposite d s cx cy).mode = d.mode := rfl

@[simp] theorem alphaComposite_width (d s cx cy) : (alphaComposite d s cx cy).width = d.width := rfl

@[simp] theorem alphaComposite_height (d s cx cy) : (alphaComposite d s cx cy).height = d.height := rfl

@[simp] theorem pasteAt_mode (d s cx cy) : (pasteAt d s cx cy).mode = d.mode := rfl

@[simp] theorem pasteAt_width (d s cx cy) : (pasteAt d s cx cy).width = d.width := rfl

@[simp] theorem pasteAt_height (d s cx cy) : (pasteAt d s cx cy).height = d.height := rfl

@[simp] theorem pasteMask_mode (d s mk cx cy) : (pasteMask d s mk cx cy).mode = d.mode := rfl

@[simp] theorem pasteMask_width (d s mk cx cy) : (pasteMask d s mk cx cy).width = d.width := rfl

@[simp] theorem pasteMask_height (d s mk cx cy) : (pasteMask d s mk cx cy).height = d.height := rfl

theorem renderContentFinal_mode (F R w h zoom padding t bg) :
    (renderContentFinal F R w h zoom padding t bg).mode =
      (if t then PMode.RGBA else PMode.RGB) := by
  cases t <;> simp [renderContentFinal, apply_ite PImage.mode]

theorem renderSvgToPillow_mode (F R w h zoom padding t bgc) :
    (renderSvgToPillow F R w h zoom padding t bgc).mode =
      (if t then PMode.RGBA else PMode.RGB) := by
  rw [renderSvgToPillow]
  cases t <;> simp [renderContentFinal_mode]

theorem renderSvgToPillow_width (F R w h zoom padding t bgc) :
    (renderSvgToPillow F R w h zoom padding t bgc).width = max 1 w := by
  rw [renderSvgToPillow]
  cases t <;> simp <;> split <;> simp

theorem renderSvgToPillow_height (F R w h zoom padding t bgc) :
    (renderSvgToPillow F R w h zoom padding t bgc).height = max 1 h := by
  rw [renderSvgToPillow]
  cases t <;> simp <;> split <;> simp

theorem pillow_flatten_mode (img : PImage) (bg) : (pillow_flatten img bg).mode = PMode.RGB := by
  rw [pillow_flatten]
  split <;> simp

theorem convPix_toRGB_alpha (m : PMode) (p : Pixel) : (convPix m .RGB p).a = 255 := by
  cases m <;> simp [convPix]

theorem convPix_RGB_RGB (p : Pixel) (hp : p.a = 255) : convPix .RGB .RGB p = p := by
  cases p
  simp only [convPix]
  simp_all

theorem pillow_flatten_alpha (img : PImage) (bg) (x y : Nat) :
    ((pillow_flatten img bg).px x y).a = 255 := by
  rw [pillow_flatten]
  split
  · exact convPix_toRGB_alpha _ _
  · simp only [pasteMask]
    split
    · rfl
    · rfl

theorem convert_RGB_eq_self (img : PImage) (hm : img.mode = PMode.RGB)
    (ha : ∀ x y, (img.px x y).a = 255) : img.convert .RGB = img := by
  obtain ⟨m, w, h, f⟩ := img
  simp only at hm ha
  subst hm
  simp only [PImage.convert, PImage.mk.injEq, true_and]
  funext x y
  exact convPix_RGB_RGB _ (ha x y)

theorem pillow_flatten_idem_helper (img : PImage) (bg) :
    pillow_flatten (pillow_flatten img bg) bg = pillow_flatten img bg := by
  conv_lhs => rw [pillow_flatten]
  rw [if_pos (by rw [pillow_flatten_mode]; exact fun hx => PMode.noConfusion hx)]
  exact convert_RGB_eq_self _ (pillow_flatten_mode img bg) (pillow_flatten_alpha img bg)

theorem floor_mul_le_self (a : Nat) (q : ℚ) (hq : q ≤ 1) (ha : 1 ≤ a) :
    max 1 (⌊(a : ℚ) * q⌋.toNat) ≤ a := by
  refine Nat.max_le.mpr ⟨ha, ?_⟩
  rw [Int.toNat_le]
  calc ⌊(a : ℚ) * q⌋ ≤ ⌊(a : ℚ)⌋ := by
        apply Int.floor_le_floor
        calc (a : ℚ) * q ≤ (a : ℚ) * 1 :=
              mul_le_mul_of_nonneg_left hq (by positivity)
        _ = a := mul_one _
  _ = (a : Int) := Int.floor_natCast a

theorem floor_mul_div_le (c W : Nat) (hc : 1 ≤ c) (hW : 1 ≤ W) (scale : ℚ)
    (hs : scale ≤ (W : ℚ) / (c : ℚ)) :
    max 1 (⌊(c : ℚ) * scale⌋.toNat) ≤ W := by
  have hcQ : (0 : ℚ) < c := by positivity
  refine Nat.max_le.mpr ⟨hW, ?_⟩
  rw [Int.toNat_le]
  have hle : (c : ℚ) * scale ≤ W := by
    calc (c : ℚ) * scale ≤ (c : ℚ) * ((W : ℚ) / (c : ℚ)) :=
          mul_le_mul_of_nonneg_left hs (by positivity)
    _ = W := by field_simp
  calc ⌊(c : ℚ) * scale⌋ ≤ ⌊(W : ℚ)⌋ := Int.floor_le_floor hle
  _ = (W : Int) := Int.floor_natCast W

theorem scale_clamp_width_le (content : PImage) (W H : Nat) (R : Resample)
    (hcw : 1 ≤ content.width) (hW : 1 ≤ W) (hcwW : content.width ≤ W) :
    (if min ((W : ℚ) / (content.width : ℚ)) (min ((H : ℚ) / (content.height : ℚ)) 1) < 1 then
        content.resize
          (max 1 (⌊(content.width : ℚ) * min ((W : ℚ) / (content.width : ℚ))
            (min ((H : ℚ) / (content.height : ℚ)) 1)⌋.toNat))
          (max 1 (⌊(content.height : ℚ) * min ((W : ℚ) / (content.width : ℚ))
            (min ((H : ℚ) / (content.height : ℚ)) 1)⌋.toNat)) R
      else content).width ≤ W := by
  split
  · rw [resize_width]
    exact floor_mul_div_le content.width W hcw hW _ (min_le_left _ _)
  · exact hcwW

theorem scale_clamp_height_le (content : PImage) (W H : Nat) (R : Resample)
    (hch : 1 ≤ content.height) (hH : 1 ≤ H) (hchH : content.height ≤ H) :
    (if min ((W : ℚ) / (content.width : ℚ)) (min ((H : ℚ) / (content.height : ℚ)) 1) < 1 then
        content.resize
          (max 1 (⌊(content.width : ℚ) * min ((W : ℚ) / (content.width : ℚ))
            (min ((H : ℚ) / (content.height : ℚ)) 1)⌋.toNat))
          (max 1 (⌊(content.height : ℚ) * min ((W : ℚ) / (content.width : ℚ))
            (min ((H : ℚ) / (content.height : ℚ)) 1)⌋.toNat)) R
      else content).height ≤ H := by
  split
  · rw [resize_height]
    exact floor_mul_div_le content.height H hch hH _
      (le_trans (min_le_right _ _) (min_le_left _ _))
  · exact hchH

theorem renderContentFinal_le_work (F : Svg2Png) (R : Resample) (width height : Nat)
    (zoom : ℚ) (padding : Nat) (t : Bool) (bg : QColorT) :
    (renderContentFinal F R width height zoom padding t bg).width ≤
        max 1 (max 1 width - 2 * padding) ∧
      (renderContentFinal F R width height zoom padding t bg).height ≤
        max 1 (max 1 height - 2 * padding) := by
  have hzoomC : max (1 / 10 : ℚ) (min 1 zoom) ≤ 1 :=
    max_le (by norm_num) (min_le_left _ _)
  rw [renderContentFinal]
  constructor
  · exact scale_clamp_width_le _ _ _ R (le_max_left _ _) (le_max_left _ _)
      (floor_mul_le_self _ _ hzoomC (le_max_left _ _))
  · exact scale_clamp_height_le _ _ _ R (le_max_left _ _) (le_max_left _ _)
      (floor_mul_le_self _ _ hzoomC (le_max_left _ _))

theorem renderSvgToPillow_decomp (F : Svg2Png) (R : Resample) (w h : Nat) (zoom : ℚ)
    (padding : Nat) (t : Bool) (bgc : Option QColorT) :
    renderSvgToPillow F R w h zoom padding t bgc =
      centeredCanvasPlace (renderContentFinal F R w h zoom padding t (bgc.getD whiteColor))
        (max 1 w) (max 1 h) t (bgc.getD whiteColor) := by
  cases t <;> simp [renderSvgToPillow, centeredCanvasPlace, renderContentFinal_mode]

/-- C1: for every render request with zoom in [0.1, 1.0] and padding ≥ 0 such
that 2·padding < min(width, height), the content placed on the composited
canvas by `render_svg_to_pillow` has width at most width − 2·padding and
height at most height − 2·padding: the zoom is clamped into [0.1, 1.0]
before use and the safety re-clamp downscales any rounding overflow back
into the work area. -/
theorem c1_content_fits_work_area (F : Svg2Png) (R : Resample) (width height : Nat)
    (zoom : ℚ) (padding : Nat) (t : Bool) (bg : QColorT)
    (hz1 : Rat.divInt 1 10 ≤ zoom) (hz2 : zoom ≤ 1)
    (hpad : 2 * padding < min width height) :
    (renderContentFinal F R width height zoom padding t bg).width ≤ width - 2 * padding ∧
      (renderContentFinal F R width height zoom padding t bg).height ≤ height - 2 * padding := by
  obtain ⟨h1, h2⟩ := renderContentFinal_le_work F R width height zoom padding t bg
  have hw : 2 * padding < width := lt_of_lt_of_le hpad (min_le_left _ _)
  have hh : 2 * padding < height := lt_of_lt_of_le hpad (min_le_right _ _)
  have ew : max 1 (max 1 width - 2 * padding) = width - 2 * padding := by omega
  have eh : max 1 (max 1 height - 2 * padding) = height - 2 * padding := by omega
  rw [ew] at h1
  rw [eh] at h2
  exact ⟨h1, h2⟩

/-- Witness for C1 at width 10, height 8, zoom 1/2, padding 1. -/
theorem c1_content_fits_work_area_witness :
    Rat.divInt 1 10 ≤ Rat.divInt 1 2 ∧ Rat.divInt 1 2 ≤ (1 : ℚ) ∧ 2 * 1 < min 10 8 ∧
      ((renderContentFinal sampleSvg2Png sampleResample 10 8 (Rat.divInt 1 2) 1 true
            sampleColor).width ≤ 10 - 2 * 1 ∧
        (renderContentFinal sampleSvg2Png sampleResample 10 8 (Rat.divInt 1 2) 1 true
            sampleColor).height ≤ 8 - 2 * 1) :=
  ⟨by decide, by decide, by decide,
    c1_content_fits_work_area sampleSvg2Png sampleResample 10 8 (Rat.divInt 1 2) 1 true
      sampleColor (by decide) (by decide) (by decide)⟩

/-- C2: for every width ≥ 1 and height ≥ 1, `render_svg_to_pillow` returns an
image of exactly width × height pixels, with mode RGBA when transparent and
RGB otherwise. -/
theorem c2_render_dims_and_mode (F : Svg2Png) (R : Resample) (width height : Nat)
    (zoom : ℚ) (padding : Nat) (t : Bool) (bgc : Option QColorT)
    (hw : 1 ≤ width) (hh : 1 ≤ height) :
    (renderSvgToPillow F R width height zoom padding t bgc).width = width ∧
      (renderSvgToPillow F R width height zoom padding t bgc).height = height ∧
      (renderSvgToPillow F R width height zoom padding t bgc).mode =
        (if t then PMode.RGBA else PMode.RGB) := by
  refine ⟨?_, ?_, renderSvgToPillow_mode F R width height zoom padding t bgc⟩
  · rw [renderSvgToPillow_width]
    omega
  · rw [renderSvgToPillow_height]
    omega

/-- Witness for C2 at width 5, height 7, transparent false. -/
theorem c2_render_dims_and_mode_witness :
    (renderSvgToPillow sampleSvg2Png sampleResample 5 7 1 0 false none).width = 5 ∧
      (renderSvgToPillow sampleSvg2Png sampleResample 5 7 1 0 false none).height = 7 ∧
      (renderSvgToPillow sampleSvg2Png sampleResample 5 7 1 0 false none).mode =
        (if false then PMode.RGBA else PMode.RGB) :=
  c2_render_dims_and_mode sampleSvg2Png sampleResample 5 7 1 0 false none
    (by decide) (by decide)

/-- C8: for every composited image the content is placed at exactly
`((canvas_w - content_w) // 2, (canvas_h - content_h) // 2)` with integer
floor division, in both the transparent and the opaque branch: the whole
render is the centered placement of the clamped content. -/
theorem c8_centering_offset_exact (F : Svg2Png) (R : Resample) (w h : Nat)
    (zoom : ℚ) (padding : Nat) (t : Bool) (bgc : Option QColorT)
    (hw : 1 ≤ w) (hh : 1 ≤ h) :
    renderSvgToPillow F R w h zoom padding t bgc =
      centeredCanvasPlace (renderContentFinal F R w h zoom padding t (bgc.getD whiteColor))
        w h t (bgc.getD whiteColor) := by
  rw [renderSvgToPillow_decomp]
  have hmw : max 1 w = w := by omega
  have hmh : max 1 h = h := by omega
  rw [hmw, hmh]

/-- Witness for C8 at width 6, height 4, transparent true. -/
theorem c8_centering_offset_exact_witness :
    renderSvgToPillow sampleSvg2Png sampleResample 6 4 1 0 true (some sampleColor) =
      centeredCanvasPlace
        (renderContentFinal sampleSvg2Png sampleResample 6 4 1 0 true
          ((some sampleColor).getD whiteColor)) 6 4 true ((some sampleColor).getD whiteColor) :=
  c8_centering_offset_exact sampleSvg2Png sampleResample 6 4 1 0 true (some sampleColor)
    (by decide) (by decide)

/-- C9: `pillow_flatten` is idempotent for any image and fixed background,
and on non-RGBA input it is exactly conversion to RGB. -/
theorem c9_flatten_idempotent_and_noop (img : PImage) (bg : Nat × Nat × Nat × Nat) :
    pillow_flatten (pillow_flatten img bg) bg = pillow_flatten img bg ∧
      (img.mode ≠ PMode.RGBA → pillow_flatten img bg = img.convert .RGB) :=
  ⟨pillow_flatten_idem_helper img bg, fun hmode => by rw [pillow_flatten, if_pos hmode]⟩

/-- Witness for C9 on a concrete RGB image. -/
theorem c9_flatten_idempotent_and_noop_witness :
    pillow_flatten (pillow_flatten sampleImageRGB (10, 20, 30, 255)) (10, 20, 30, 255) =
        pillow_flatten sampleImageRGB (10, 20, 30, 255) ∧
      pillow_flatten sampleImageRGB (10, 20, 30, 255) = sampleImageRGB.convert .RGB :=
  ⟨(c9_flatten_idempotent_and_noop sampleImageRGB (10, 20, 30, 255)).1,
    (c9_flatten_idempotent_and_noop sampleImageRGB (10, 20, 30, 255)).2 (by decide)⟩

/-- C10: the raster-source render path decodes the source, converts it to
RGBA and resizes it to exactly the target size; zoom, padding, the
transparent flag and the background color have no effect on it. -/
theorem c10_png_source_ignores_params (decoded : PImage) (R : Resample) (w h : Nat)
    (z1 z2 : ℚ) (p1 p2 : Nat) (t1 t2 : Bool) (b1 b2 : QColorT) :
    png_render_to_pillow decoded R w h z1 p1 t1 b1 =
        png_render_to_pillow decoded R w h z2 p2 t2 b2 ∧
      png_render_to_pillow decoded R w h z1 p1 t1 b1 =
        (decoded.convert .RGBA).resize w h R :=
  ⟨rfl, rfl⟩

/-- C4: for every export run with transparent = false, every produced image,
including the source image handed to the ICO container builder, the image
handed to the ICNS encoder and the fallback iconset frames, has mode RGB
with no alpha channel, for every supported output format. -/
theorem c4_exports_all_rgb_when_not_transparent (E : List FPath) (F : Svg2Png) (R : Resample)
    (out_dir : List String) (label name cname : String) (sizes : List Nat)
    (wsizes : List (Nat × Nat)) (w h : Nat) (fmt : String) (zoom : ℚ) (padding : Nat)
    (bgc : Option QColorT) (bg : QColorT) (pf dw : Bool) (ec : Nat) :
    (renderSvgToPillow F R w h zoom padding false bgc).mode = PMode.RGB ∧
      ((save_windows_ico E F R out_dir sizes false zoom padding bg).writes.all
        fun e => e.2.mode == PMode.RGB) = true ∧
      ((save_macos_icns E F R out_dir sizes false zoom padding bg pf dw ec).writes.all
        fun e => e.2.mode == PMode.RGB) = true ∧
      ((save_png_set F R out_dir label name sizes false zoom padding bg fmt).writes.all
        fun e => e.2.mode == PMode.RGB) = true ∧
      ((save_wallpapers F R out_dir label name wsizes false zoom padding bg fmt).writes.all
        fun e => e.2.mode == PMode.RGB) = true ∧
      ((save_custom E F R out_dir cname w h fmt false zoom padding bg).writes.all
        fun e => e.2.mode == PMode.RGB) = true := by
  have hbeq : (PMode.RGB == PMode.RGB) = true := rfl
  refine ⟨?_, ?_, ?_, ?_, ?_, ?_⟩
  · rw [renderSvgToPillow_mode]
    rfl
  · simp [save_windows_ico, renderSvgToPillow_mode, hbeq]
  · cases pf <;> cases dw <;>
      simp [save_macos_icns, pillow_flatten_mode, renderSvgToPillow_mode,
        List.all_map, Function.comp, hbeq]
  · simp [save_png_set, pillow_flatten_mode, List.all_map, Function.comp, hbeq]
  · simp only [save_wallpapers, List.all_map, List.all_eq_true, Function.comp]
    intro sz hsz
    rw [List.mem_map] at hsz
    obtain ⟨a, ha, rfl⟩ := hsz
    simp [pillow_flatten_mode, hbeq]
  · simp only [save_custom]
    split_ifs with h1 h2
    · simp [pillow_flatten_mode, hbeq]
    · simp [pillow_flatten_mode, hbeq]
    · exact absurd (Or.inr trivial) h2

/-- C3: for every export whose output format is JPG, BMP or PDF, the
composited image is flattened onto the opaque background RGB before
encoding, regardless of the transparent flag; for PDF the encoded image is
additionally forced to RGB mode. -/
theorem c3_jpg_bmp_pdf_always_flattened (E : List FPath) (F : Svg2Png) (R : Resample)
    (out_dir : List String) (name label pname : String) (w h : Nat)
    (sizes : List Nat) (wsizes : List (Nat × Nat)) (fmt : String)
    (t : Bool) (zoom : ℚ) (padding : Nat) (bg : QColorT) :
    (pyLower fmt = "pdf" →
      (save_custom E F R out_dir name w h fmt t zoom padding bg).writes =
        [(uniquePath E ⟨out_dir, name ++ "_" ++ toString w ++ "x" ++ toString h,
            "." ++ pyLower fmt⟩,
          (pillow_flatten (renderSvgToPillow F R w h zoom padding t (some bg))
            (qcolor_to_rgba_tuple bg)).convert .RGB)]) ∧
    (pyLower fmt ∈ ["jpg", "jpeg", "bmp"] →
      (save_custom E F R out_dir name w h fmt t zoom padding bg).writes =
        [(uniquePath E ⟨out_dir, name ++ "_" ++ toString w ++ "x" ++ toString h,
            "." ++ pyLower fmt⟩,
          pillow_flatten (renderSvgToPillow F R w h zoom padding t (some bg))
            (qcolor_to_rgba_tuple bg))] ∧
      (save_png_set F R out_dir label pname sizes t zoom padding bg fmt).writes =
        sizes.map (fun s =>
          (⟨out_dir ++ [label, pname], pname ++ "_" ++ toString s ++ "x" ++ toString s,
            "." ++ pyLower fmt⟩,
          pillow_flatten (renderSvgToPillow F R s s zoom padding t (some bg))
            (qcolor_to_rgba_tuple bg))) ∧
      (save_wallpapers F R out_dir label pname wsizes t zoom padding bg fmt).writes =
        wsizes.map (fun sz =>
          (⟨out_dir ++ ["wallpapers", label, pname],
            pname ++ "_" ++ toString sz.1 ++ "x" ++ toString sz.2, "." ++ pyLower fmt⟩,
          pillow_flatten (renderSvgToPillow F R sz.1 sz.2 zoom padding t (some bg))
            (qcolor_to_rgba_tuple bg)))) := by
  constructor
  · intro hpdf
    simp only [save_custom]
    rw [if_pos hpdf]
  · intro hmem
    have hne : pyLower fmt ≠ "pdf" := by
      intro heq
      rw [heq] at hmem
      simp at hmem
    refine ⟨?_, ?_, ?_⟩
    · simp only [save_custom]
      rw [if_neg hne, if_pos (Or.inl hmem)]
    · simp only [save_png_set]
      refine List.map_congr_left fun s _ => ?_
      rw [if_pos (Or.inl hmem)]
    · simp only [save_wallpapers]
      refine List.map_congr_left fun sz _ => ?_
      rw [if_pos (Or.inl hmem)]

/-- Witness for C3 at format "PDF" and format "JPG" with transparent = true. -/
theorem c3_jpg_bmp_pdf_always_flattened_witness :
    ((save_custom [] sampleSvg2Png sampleResample ["out"] "img" 1 1 "PDF" true 1 0
        sampleColor).writes =
      [(uniquePath [] ⟨["out"], "img" ++ "_" ++ toString 1 ++ "x" ++ toString 1,
          "." ++ pyLower "PDF"⟩,
        (pillow_flatten (renderSvgToPillow sampleSvg2Png sampleResample 1 1 1 0 true
            (some sampleColor)) (qcolor_to_rgba_tuple sampleColor)).convert .RGB)]) ∧
    ((save_custom [] sampleSvg2Png sampleResample ["out"] "img" 1 1 "JPG" true 1 0
        sampleColor).writes =
      [(uniquePath [] ⟨["out"], "img" ++ "_" ++ toString 1 ++ "x" ++ toString 1,
          "." ++ pyLower "JPG"⟩,
        pillow_flatten (renderSvgToPillow sampleSvg2Png sampleResample 1 1 1 0 true
          (some sampleColor)) (qcolor_to_rgba_tuple sampleColor))] ∧
      (save_png_set sampleSvg2Png sampleResample ["out"] "linux" "n" [2] true 1 0
          sampleColor "JPG").writes =
        [2].map (fun s =>
          (⟨["out"] ++ ["linux", "n"], "n" ++ "_" ++ toString s ++ "x" ++ toString s,
            "." ++ pyLower "JPG"⟩,
          pillow_flatten (renderSvgToPillow sampleSvg2Png sampleResample s s 1 0 true
            (some sampleColor)) (qcolor_to_rgba_tuple sampleColor))) ∧
      (save_wallpapers sampleSvg2Png sampleResample ["out"] "linux" "n" [(2, 3)] true 1 0
          sampleColor "JPG").writes =
        [(2, 3)].map (fun sz =>
          (⟨["out"] ++ ["wallpapers", "linux", "n"],
            "n" ++ "_" ++ toString sz.1 ++ "x" ++ toString sz.2, "." ++ pyLower "JPG"⟩,
          pillow_flatten (renderSvgToPillow sampleSvg2Png sampleResample sz.1 sz.2 1 0 true
            (some sampleColor)) (qcolor_to_rgba_tuple sampleColor)))) :=
  ⟨(c3_jpg_bmp_pdf_always_flattened [] sampleSvg2Png sampleResample ["out"] "img" "linux"
      "n" 1 1 [2] [(2, 3)] "PDF" true 1 0 sampleColor).1 (by decide),
    (c3_jpg_bmp_pdf_always_flattened [] sampleSvg2Png sampleResample ["out"] "img" "linux"
      "n" 1 1 [2] [(2, 3)] "JPG" true 1 0 sampleColor).2 (by decide)⟩

/-- C5 counterexample: `save_png_set` writes its fixed destination name even
when that file already exists, so the claim that a numeric suffix is
appended for every file of every profile's size set fails: with
`out/linux/img/img_16x16.png` already existing, the export still writes to
exactly that path, although collision-safe naming would have picked the
`_1`-suffixed stem. -/
theorem c5_png_set_overwrites_counterexample :
    ((save_png_set sampleSvg2Png sampleResample ["out"] "linux" "img" [16] true 1 0
        sampleColor "png").writes.map Prod.fst) =
        [⟨["out", "linux", "img"], "img_16x16", ".png"⟩] ∧
      uniquePath [⟨["out", "linux", "img"], "img_16x16", ".png"⟩]
          ⟨["out", "linux", "img"], "img_16x16", ".png"⟩ ≠
        ⟨["out", "linux", "img"], "img_16x16", ".png"⟩ := by
  refine ⟨rfl, ?_⟩
  decide

/-- C5 amended: files written through `unique_path` — the custom export file,
`icon.ico` and `icon.icns` — never overwrite an existing path: the original
name is used when free, otherwise the first free numeric suffix `_1, _2, ...`
is chosen.  The PNG-set and wallpaper exports, however, write fixed
destination names with no collision check. -/
theorem c5_unique_path_collision_safe (E : List FPath) (p : FPath) (F : Svg2Png)
    (R : Resample) (out_dir : List String) (name label pname : String) (w h : Nat)
    (fmt : String) (t : Bool) (zoom : ℚ) (padding : Nat) (bg : QColorT)
    (sizes : List Nat) (wsizes : List (Nat × Nat)) (dw : Bool) (ec : Nat) :
    uniquePath E p ∉ E ∧
      (p ∉ E → uniquePath E p = p) ∧
      (p ∈ E → ∃ k, 1 ≤ k ∧ uniquePath E p = suffixedStem p k ∧
        ∀ j, 1 ≤ j → j < k → suffixedStem p j ∈ E) ∧
      (save_custom E F R out_dir name w h fmt t zoom padding bg).writes.map Prod.fst =
        [uniquePath E ⟨out_dir, name ++ "_" ++ toString w ++ "x" ++ toString h,
          "." ++ pyLower fmt⟩] ∧
      (save_windows_ico E F R out_dir sizes t zoom padding bg).writes.map Prod.fst =
        [uniquePath E ⟨out_dir, "icon", ".ico"⟩] ∧
      (save_macos_icns E F R out_dir sizes t zoom padding bg false dw ec).writes.map
          Prod.fst =
        [uniquePath E ⟨out_dir, "icon", ".icns"⟩] ∧
      (save_png_set F R out_dir label pname sizes t zoom padding bg fmt).writes.map
          Prod.fst =
        sizes.map (fun s => ⟨out_dir ++ [label, pname],
          pname ++ "_" ++ toString s ++ "x" ++ toString s, "." ++ pyLower fmt⟩) ∧
      (save_wallpapers F R out_dir label pname wsizes t zoom padding bg fmt).writes.map
          Prod.fst =
        wsizes.map (fun sz => ⟨out_dir ++ ["wallpapers", label, pname],
          pname ++ "_" ++ toString sz.1 ++ "x" ++ toString sz.2, "." ++ pyLower fmt⟩) := by
  refine ⟨uniquePath_not_mem E p, (uniquePath_characterization E p).1,
    (uniquePath_characterization E p).2, ?_, rfl, rfl, ?_, ?_⟩
  · simp only [save_custom]
    split_ifs <;> rfl
  · simp only [save_png_set, List.map_map]
    rfl
  · simp only [save_wallpapers, List.map_map]
    rfl

/-- Witness for C5 amended on a concrete one-element filesystem. -/
theorem c5_unique_path_collision_safe_witness :
    uniquePath [samplePath] samplePath ∉ [samplePath] ∧
      ∃ k, 1 ≤ k ∧ uniquePath [samplePath] samplePath = suffixedStem samplePath k ∧
        ∀ j, 1 ≤ j → j < k → suffixedStem samplePath j ∈ [samplePath] :=
  ⟨(c5_unique_path_collision_safe [samplePath] samplePath sampleSvg2Png sampleResample
      ["o"] "n" "l" "p" 1 1 "png" true 1 0 sampleColor [] [] false 0).1,
    (c5_unique_path_collision_safe [samplePath] samplePath sampleSvg2Png sampleResample
      ["o"] "n" "l" "p" 1 1 "png" true 1 0 sampleColor [] [] false 0).2.2.1 (by decide)⟩

/-- C6 counterexample: the Windows ICO export performs exactly one rasterizer
invocation, at the largest preset size 256, although the profile lists seven
sizes — the sizes are not each independently rendered. -/
theorem c6_ico_single_render_counterexample :
    (save_windows_ico [] sampleSvg2Png sampleResample ["out", "windows"] WINDOWS_ICO_SIZES
        true 1 0 sampleColor).renders = [(256, 256)] ∧
      WINDOWS_ICO_SIZES.length = 7 :=
  ⟨rfl, rfl⟩

/-- C6 amended: the ICO and ICNS container exports render a single base image
at the largest size of the profile; the per-size container frames are
produced by the encoder from that one render.  Only the macOS `iconutil`
fallback of the ICNS export re-renders each listed size. -/
theorem c6_container_single_base_render (E : List FPath) (F : Svg2Png) (R : Resample)
    (out_dir : List String) (sizes : List Nat) (t : Bool) (zoom : ℚ) (padding : Nat)
    (bg : QColorT) (dw : Bool) (ec : Nat) :
    (save_windows_ico E F R out_dir sizes t zoom padding bg).renders =
        [(maxList sizes, maxList sizes)] ∧
      (save_macos_icns E F R out_dir sizes t zoom padding bg false dw ec).renders =
        [(maxList sizes, maxList sizes)] ∧
      (save_macos_icns E F R out_dir sizes t zoom padding bg true true ec).renders =
        (maxList sizes, maxList sizes) :: sizes.map (fun s => (s, s)) :=
  ⟨rfl, rfl, rfl⟩

/-- C7 counterexample: when the Cairo backend is unavailable the module-level
guard terminates the process with `sys.exit(1)`; no catchable
`BackendUnavailable` exception reaches any export call. -/
theorem c7_no_catchable_error_counterexample :
    (cairosvgImport false "Linux").outcome = StartupOutcome.processExit 1 ∧
      (cairosvgImport false "Linux").outcome ≠
        StartupOutcome.raisedCatchable "BackendUnavailable" := by
  refine ⟨rfl, ?_⟩
  decide

/-- C7 amended: when the rasterization backend is unavailable the program
exits at import time with code 1 after printing platform-specific install
instructions; export code never runs, zero output files are written, and no
catchable exception of any name is raised. -/
theorem c7_backend_missing_exits_process (sysPlatform : String) :
    (cairosvgImport false sysPlatform).outcome = StartupOutcome.processExit 1 ∧
      (cairosvgImport false sysPlatform).filesWritten = [] ∧
      ∀ e, (cairosvgImport false sysPlatform).outcome ≠ StartupOutcome.raisedCatchable e :=
  ⟨rfl, rfl, fun _ h => StartupOutcome.noConfusion h⟩

end SvgConv
